import Mathlib

/-!
Shallow embedding of the link-extraction core of `find-broken-links`
(`src/index.ts`).  Strings are modelled as `List Char` internally (the
exported functions take `String` and work on `.data`), JavaScript regular
expressions are translated into explicit deterministic scanners (each
translation is justified in the doc comment of the corresponding
definition), and the recursive scanners use a fuel argument that is
always instantiated with a provably sufficient bound, keeping every
definition structurally recursive and kernel-computable.
-/

/-- The backtick character (used by fenced code blocks), written via its
code point so that the source file itself contains no backtick. -/
def btChar : Char := Char.ofNat 96

/-- The single-quote character, written via its code point. -/
def sqChar : Char := Char.ofNat 39

/-- `spanP p l = (l.takeWhile p, l.dropWhile p)`: the greedy split of a
list at the first element falsifying `p` (what `List.span` computes),
spelled with `takeWhile`/`dropWhile` for direct reasoning. -/
def spanP (p : Char → Bool) (l : List Char) : List Char × List Char :=
  (l.takeWhile p, l.dropWhile p)

/-- The set of characters matched by JavaScript's `\s` class (which is
also the set trimmed by `String.prototype.trim`). -/
def jsSpaceChars : List Char :=
  [' ', '\t', '\n', '\r', '\x0B', '\x0C', '\u00A0', '\u1680',
   '\u2000', '\u2001', '\u2002', '\u2003', '\u2004', '\u2005', '\u2006',
   '\u2007', '\u2008', '\u2009', '\u200A', '\u2028', '\u2029', '\u202F',
   '\u205F', '\u3000', '\uFEFF']

/-- JavaScript whitespace predicate (`\s`). -/
def isJsSpace (c : Char) : Bool := jsSpaceChars.contains c

/-- Model of `String.prototype.trim`: drop JavaScript whitespace from
both ends. -/
def trimL (l : List Char) : List Char :=
  ((l.dropWhile isJsSpace).reverse.dropWhile isJsSpace).reverse

/-- Model of JavaScript `String.prototype.includes pat`: does `pat`
occur as a contiguous substring? -/
def hasSubstrL (pat : List Char) : List Char → Bool
  | [] => pat.isPrefixOf ([] : List Char)
  | c :: cs => pat.isPrefixOf (c :: cs) || hasSubstrL pat cs

/-- `String`-level wrapper for `hasSubstrL` (JS `s.includes(pat)`). -/
def hasSubstr (s pat : String) : Bool := hasSubstrL pat.data s.data

/-- Model of the scheme part `https?:\/\/` shared by every regex of the
source.  The alternativeless backtracking of `s?` is deterministic: on a
string starting with `https://` only the branch with `s` survives, on
one starting with `http://` only the branch without it, and otherwise
both fail; so testing the two literal prefixes in this order is an exact
translation.  Returns the matched scheme and the rest. -/
def dropScheme : List Char → Option (List Char × List Char)
  | 'h' :: 't' :: 't' :: 'p' :: 's' :: ':' :: '/' :: '/' :: r =>
    some ("https://".data, r)
  | 'h' :: 't' :: 't' :: 'p' :: ':' :: '/' :: '/' :: r =>
    some ("http://".data, r)
  | _ => none

/-- First two characters are ASCII letters (the `[a-zA-Z]{2,}` tail of
`isValidUrl`; an unanchored test only needs two). -/
def twoAlpha : List Char → Bool
  | a :: b :: _ => a.isAlpha && b.isAlpha
  | _ => false

/-- One domain label of `isValidUrl`'s regex:
`[a-zA-Z0-9]([a-zA-Z0-9\-]{0,61}[a-zA-Z0-9])?` — either a single
alphanumeric character, or 2 to 63 characters that start and end
alphanumeric with `[a-zA-Z0-9-]` in between. -/
def isLabel : List Char → Bool
  | [] => false
  | c :: cs =>
    match cs with
    | [] => c.isAlphanum
    | _ =>
      c.isAlphanum && cs.length ≤ 62 &&
      (cs.dropLast.all fun x => x.isAlphanum || x = '-') &&
      (cs.getLast?.elim false Char.isAlphanum)

/-- The `(label\.)+[a-zA-Z]{2,}` part of `isValidUrl`'s regex.  Since a
label contains no dot, a decomposition into `k` groups `label.` is
unique for each `k`; the regex test succeeds iff some `k ≥ 1` works,
which this fuelled loop decides (`started` records that at least one
`label.` group has been consumed).  Each iteration consumes at least one
character (the dot), so fuel `length + 1` is sufficient. -/
def hostLoopF : Nat → Bool → List Char → Bool
  | 0, _, _ => false
  | f + 1, started, cs =>
    (started && twoAlpha cs) ||
      (match spanP (fun c => !(c == '.')) cs with
       | (seg, '.' :: rest) => isLabel seg && hostLoopF f true rest
       | _ => false)

/-- Model of `isValidUrl` (src/index.ts:311-314):
`/^https?:\/\/([a-zA-Z0-9]([a-zA-Z0-9\-]{0,61}[a-zA-Z0-9])?\.)+[a-zA-Z]{2,}/.test(url)`. -/
def isValidUrlL (url : List Char) : Bool :=
  match dropScheme url with
  | some (_, r) => hostLoopF (r.length + 1) false r
  | none => false

/-- `String`-level `isValidUrl`. -/
def isValidUrl (url : String) : Bool := isValidUrlL url.data

/-- The optional non-capturing group `(?:#L\d+(?:-L\d+)?)?` of the
GitHub repair regex: consume a line-range fragment if one starts here,
otherwise consume nothing.  `\d+` is greedy and deterministic (maximal
digit run), and the inner `(?:-L\d+)?` likewise. -/
def dropLineFrag (l : List Char) : List Char :=
  match l with
  | '#' :: 'L' :: r =>
    match spanP Char.isDigit r with
    | ([], _) => l
    | (_, r2) =>
      match r2 with
      | '-' :: 'L' :: r3 =>
        match spanP Char.isDigit r3 with
        | ([], _) => r2
        | (_, r4) => r4
      | _ => r2
  | _ => l

/-- Model of the GitHub repair regex of `fixParenthesesInUrl`
(src/index.ts:290-292):

`/^(https?:\/\/github\.com\/[^/]+\/[^/]+\/blob\/[^/]+\/[^#)]+)(?:#L\d+(?:-L\d+)?)?(.*)?$/`

Every quantified class excludes the character of the literal that
follows it, so greedy matching is deterministic and no backtracking can
succeed where this parse fails (in particular `[^/]+` always stops at
the first `/`, and `[^#)]+` at the first `#` or `)`).  `(.*)?$` matches
the remainder exactly when it contains no line terminator (JS `.` does
not match `\n` or `\r`, and without the `m` flag `$` only matches at the
very end).  Returns capture groups 1 and 2. -/
def githubMatchL (l : List Char) : Option (List Char × List Char) :=
  match dropScheme l with
  | none => none
  | some (scheme, r0) =>
    match r0 with
    | 'g' :: 'i' :: 't' :: 'h' :: 'u' :: 'b' :: '.' :: 'c' :: 'o' :: 'm' :: '/' :: r1 =>
      match spanP (fun c => !(c == '/')) r1 with
      | (user, '/' :: r2) =>
        if user.isEmpty then none else
        match spanP (fun c => !(c == '/')) r2 with
        | (repo, '/' :: r3) =>
          if repo.isEmpty then none else
          match r3 with
          | 'b' :: 'l' :: 'o' :: 'b' :: '/' :: r4 =>
            match spanP (fun c => !(c == '/')) r4 with
            | (branch, '/' :: r5) =>
              if branch.isEmpty then none else
              match spanP (fun c => !(c == '#' || c == ')')) r5 with
              | (path, r6) =>
                if path.isEmpty then none else
                let r7 := dropLineFrag r6
                if r7.contains '\n' || r7.contains '\r' then none
                else
                  some (scheme ++ "github.com/".data ++ user ++ '/' ::
                          (repo ++ '/' :: ('b' :: 'l' :: 'o' :: 'b' :: '/' ::
                            (branch ++ '/' :: path))), r7)
            | _ => none
          | _ => none
        | _ => none
      | _ => none
    | _ => none

/-- Model of the Wikipedia repair regex of `fixParenthesesInUrl`
(src/index.ts:299-301):

`/^(https?:\/\/[^/]+\.wikipedia\.org\/wiki\/[^)]+)$/`

The host part `[^/]+` cannot contain `/`, so it extends exactly to the
first `/` of the input and must end with the literal `.wikipedia.org`
after a nonempty prefix; then the literal `/wiki/` follows and `[^)]+$`
requires the nonempty remainder to contain no `)` at all.  The single
capture group is delimited by `^` and `$`, hence equals the whole input:
a successful match returns the input unchanged. -/
def wikiMatchL (l : List Char) : Option (List Char) :=
  match dropScheme l with
  | none => none
  | some (_, r0) =>
    match spanP (fun c => !(c == '/')) r0 with
    | (host, '/' :: 'w' :: 'i' :: 'k' :: 'i' :: '/' :: t) =>
      if ".wikipedia.org".data.isSuffixOf host && 14 < host.length &&
         !t.isEmpty && !t.contains ')' then
        some l
      else none
    | _ => none

/-- Model of `fixParenthesesInUrl` (src/index.ts:272-308).  The TS
declared return type is `string | null`, modelled as `Option`; every
`return` of the body returns a string, so every branch here returns
`some`.  A failed GitHub match falls through to the Wikipedia check,
mirroring the source's sequence of non-exclusive `if` blocks. -/
def fixParensL (url : List Char) : Option (List Char) :=
  if !url.contains '(' && !url.contains ')' then some url
  else if url.count '(' = url.count ')' then some url
  else
    match (if hasSubstrL "github.com".data url && hasSubstrL "/blob/".data url
           then githubMatchL url else none) with
    | some (g1, g2) => some (g1 ++ g2)
    | none =>
      match (if hasSubstrL "wikipedia.org".data url
             then wikiMatchL url else none) with
      | some g => some g
      | none => some url

/-- `String`-level `fixParenthesesInUrl`. -/
def fixParenthesesInUrl (url : String) : Option String :=
  (fixParensL url.data).map String.mk

/-- The call-site pattern around `fixParenthesesInUrl` in `extractURLs`
(src/index.ts:195-198): `if (fixedUrl) { linkUrl = fixedUrl; }` — the JS
truthiness test rejects both `null` and the empty string. -/
def applyFixL (linkUrl : List Char) : String :=
  match fixParensL linkUrl with
  | some f => if f.isEmpty then String.mk linkUrl else String.mk f
  | none => String.mk linkUrl

/-- `/^\d+$/` test used by `isLikelyAFilePath`. -/
def isAllDigits (str : List Char) : Bool :=
  !str.isEmpty && str.all Char.isDigit

/-- The fixed allow-list of file extensions of `isLikelyAFilePath`
(src/index.ts:322-343). -/
def commonFileExtensions : List String :=
  [".md", ".markdown", ".txt", ".js", ".ts", ".jsx", ".tsx", ".html",
   ".css", ".json", ".yml", ".yaml", ".png", ".jpg", ".jpeg", ".gif",
   ".svg", ".pdf", ".doc", ".docx"]

/-- Model of `isLikelyAFilePath` (src/index.ts:316-388).  JS
`str.split(" ").length` equals the number of `' '` occurrences plus one
(every space splits, adjacent spaces produce empty segments), written
here as `str.count ' ' + 1`.  `str.includes(x, 2)` is an occurrence at
index ≥ 2, written as a search in `str.drop 2`. -/
def isLikelyAFilePathL (str : List Char) : Bool :=
  if "./".data.isPrefixOf str && !((str.drop 2).contains '/') &&
     !((str.drop 2).contains '.') then
    false
  else if commonFileExtensions.any (fun ext => ext.data.isSuffixOf str) then
    true
  else if (str.contains '/' || str.contains '\\') && str.count ' ' + 1 ≤ 2 then
    true
  else if str.contains ' ' &&
          (str.contains ',' || str.contains ':' || str.contains '\x7b' ||
           str.contains '\x7d' || str.contains btChar || isAllDigits str) then
    false
  else if str == "=".data || str == "->".data || str == "=>".data ||
          isAllDigits str || str == "\x7b".data || str == "\x7d".data ||
          str == "()".data || str == "[]".data then
    false
  else if 3 < str.count ' ' + 1 then
    false
  else
    true

/-- `String`-level `isLikelyAFilePath`. -/
def isLikelyAFilePath (str : String) : Bool := isLikelyAFilePathL str.data

example : isLikelyAFilePath "arg1, arg2" = false := by decide
example : isLikelyAFilePath "path/to/file.md" = true := by decide
example : isValidUrl "http://example.com" = true := by decide
example : isValidUrl "http://" = false := by decide
example : fixParenthesesInUrl "https://en.wikipedia.org/wiki/Bracket_(mathematics" = some "https://en.wikipedia.org/wiki/Bracket_(mathematics" := by decide
example : fixParenthesesInUrl "https://github.com/u/r/blob/main/a(b.md#L5" = some "https://github.com/u/r/blob/main/a(b.md" := by decide

/-- Does the list start with three backticks? -/
def isFenceStart (l : List Char) : Bool :=
  match l with
  | a :: rest =>
    a == btChar &&
      (match rest with
       | b :: rest2 =>
         b == btChar && (match rest2 with | c :: _ => c == btChar | [] => false)
       | [] => false)
  | [] => false

/-- First occurrence of three consecutive backticks; returns the suffix
after them.  This is where the lazy `[\s\S]*?` of the code-fence regex
stops: it grows one character at a time until the closing fence
matches, i.e. it stops at the first later triple. -/
def findFence : List Char → Option (List Char)
  | [] => none
  | c :: cs =>
    if isFenceStart (c :: cs) then some ((c :: cs).drop 3) else findFence cs

/-- Fuelled worker for `stripFences`.  Each step consumes at least one
character, so fuel `length` suffices.  An opening fence with no closing
fence is kept verbatim: the regex fails to match there, and no match
can start later either, because a later triple of backticks would have
served as this opener's closer. -/
def stripFencesF : Nat → List Char → List Char
  | 0, l => l
  | _ + 1, [] => []
  | f + 1, c :: cs =>
    if isFenceStart (c :: cs) then
      match findFence (cs.drop 2) with
      | some rest => stripFencesF f rest
      | none => c :: cs
    else c :: stripFencesF f cs

/-- Model of the code-fence stripping
`content.replace(/```[\s\S]*?```/g, "")` of `extractURLs`
(src/index.ts:176): remove every non-overlapping lazily-matched
fenced block, left to right. -/
def stripFences (l : List Char) : List Char := stripFencesF l.length l

/-- Split at the first `)`: `splitCloseParen cs = some (a, b)` iff
`cs = a ++ ')' :: b` with no `)` in `a`.  This is the deterministic
behaviour of the group alternative `\([^)]*\)` after its opening
parenthesis: the greedy `[^)]*` cannot contain `)`, so it stops exactly
at the first one, which the following `\)` then consumes; if there is
none, the alternative fails. -/
def splitCloseParen : List Char → Option (List Char × List Char)
  | [] => none
  | ')' :: cs => some ([], cs)
  | c :: cs =>
    match splitCloseParen cs with
    | some (a, b) => some (c :: a, b)
    | none => none

/-- The target part `(?:\([^)]*\)|[^()])*(?:\([^)]*\)|[^()])+` of the
markdown-link regex: a maximal run of atoms, each atom being either a
one-level group `\([^)]*\)` or a single non-parenthesis character
`[^()]`.  The run stops at a `)` outside a group, at an `(` with no
later `)` (both alternatives fail there), or at the end of the input.
Greedy consumption is deterministic: at `(` only the group alternative
can apply (`[^()]` excludes `(`), elsewhere only the single-character
one.  Each step consumes at least one character, so fuel `length + 1`
suffices.  Returns (consumed atoms, rest). -/
def takeTargetF : Nat → List Char → List Char × List Char
  | 0, cs => ([], cs)
  | _ + 1, [] => ([], [])
  | f + 1, '(' :: cs =>
    (match splitCloseParen cs with
     | some (inside, rest) =>
       let tr := takeTargetF f rest
       ('(' :: (inside ++ ')' :: tr.1), tr.2)
     | none => ([], '(' :: cs))
  | _ + 1, ')' :: cs => ([], ')' :: cs)
  | f + 1, c :: cs =>
    let tr := takeTargetF f cs
    (c :: tr.1, tr.2)

/-- One attempt of the markdown-link regex
`\[([^\]]+)\]\(((?:\([^)]*\)|[^()])*(?:\([^)]*\)|[^()])+)\)`
(src/index.ts:179-180 and 249-250) at a position whose `[` has already
been consumed (`cs` is the text after it).  The label `[^\]]+` cannot
contain `]`, so the greedy run extends exactly to the first `]` and
must be nonempty; then the literal `](`; then at least one target atom;
then the final `\)`.  Backtracking over the atoms never succeeds where
greedy consumption fails: every atom starts with a character that is
not `)` (a single is `[^()]` and a group starts with `(`), so the final
`\)` can only match at the greedy stop position.  Returns
(label, target, rest after the whole match). -/
def mdTry (cs : List Char) : Option (List Char × List Char × List Char) :=
  match spanP (fun c => !(c == ']')) cs with
  | (lab, ']' :: '(' :: r3) =>
    if lab.isEmpty then none
    else
      match takeTargetF (r3.length + 1) r3 with
      | (tgt, ')' :: r5) => if tgt.isEmpty then none else some (lab, tgt, r5)
      | _ => none
  | _ => none

/-- The `while (markdownLinkRegex.exec(...))` loop: leftmost
non-overlapping matches, scanning left to right.  After a match the
scan resumes at its end (`lastIndex`); after a failed attempt at a `[`
the engine retries from the following position.  Each step consumes at
least one character, so fuel `length + 1` suffices. -/
def mdScanF : Nat → List Char → List (List Char × List Char)
  | 0, _ => []
  | _ + 1, [] => []
  | f + 1, c :: cs =>
    if c = '[' then
      match mdTry cs with
      | some (lab, tgt, rest) => (lab, tgt) :: mdScanF f rest
      | none => mdScanF f cs
    else mdScanF f cs

/-- All markdown-link matches of a text, as (label, target) pairs. -/
def mdScan (l : List Char) : List (List Char × List Char) :=
  mdScanF (l.length + 1) l

/-- One attempt of the angle-bracket regex `<(https?:\/\/[^>]+)>`
(src/index.ts:181) at a position whose `<` has been consumed: the
scheme, then a nonempty greedy run of non-`>` characters, then `>`.
Returns (capture group 1, rest after the match). -/
def angleTry (cs : List Char) : Option (List Char × List Char) :=
  match dropScheme cs with
  | some (scheme, r) =>
    (match spanP (fun c => !(c == '>')) r with
     | (body, '>' :: r2) =>
       if body.isEmpty then none else some (scheme ++ body, r2)
     | _ => none)
  | none => none

/-- The `while (angleBracketLinkRegex.exec(...))` loop. -/
def angleScanF : Nat → List Char → List (List Char)
  | 0, _ => []
  | _ + 1, [] => []
  | f + 1, c :: cs =>
    if c = '<' then
      match angleTry cs with
      | some (url, rest) => url :: angleScanF f rest
      | none => angleScanF f cs
    else angleScanF f cs

/-- All angle-bracket matches of a text. -/
def angleScan (l : List Char) : List (List Char) := angleScanF (l.length + 1) l

/-- The character class `[^\s)"']` of the raw-URL regex. -/
def rawBody (c : Char) : Bool :=
  !(isJsSpace c || c == ')' || c == '"' || c == sqChar)

/-- One attempt of the raw-URL pattern body `https?:\/\/[^\s)"']+`
(src/index.ts:183) at the current position; the lookbehinds are checked
by the caller.  Returns (match, rest). -/
def rawTry (cs : List Char) : Option (List Char × List Char) :=
  match dropScheme cs with
  | some (scheme, r) =>
    (match spanP rawBody r with
     | ([], _) => none
     | (body, r2) => some (scheme ++ body, r2))
  | none => none

/-- The negative lookbehinds `(?<![[(])(?<!\]\()(?<!<)` of the raw-URL
regex, given the two characters preceding the match position (`p1`
immediately before, `p2` before that).  The middle lookbehind is
subsumed by the first, which already excludes a preceding `(`; it is
kept for fidelity. -/
def rawLookOk (p2 p1 : Option Char) : Bool :=
  (match p1 with
   | some d => !(d == '[' || d == '(' || d == '<')
   | none => true) &&
  !(p2 == some ']' && p1 == some '(')

/-- The last two characters of a consumed match, as
(second-last, last). -/
def lastTwo (l : List Char) : Option Char × Option Char :=
  match l.reverse with
  | a :: b :: _ => (some b, some a)
  | [a] => (none, some a)
  | [] => (none, none)

/-- The `while (rawUrlRegex.exec(...))` loop, carrying the two
preceding characters for the lookbehinds.  After a match the scan
resumes at its end with the match's last two characters as context;
otherwise it advances one character.  Each step consumes at least one
character, so fuel `length + 1` suffices. -/
def rawScanF : Nat → Option Char → Option Char → List Char → List (List Char)
  | 0, _, _, _ => []
  | _ + 1, _, _, [] => []
  | f + 1, p2, p1, c :: cs =>
    if rawLookOk p2 p1 then
      match rawTry (c :: cs) with
      | some (url, rest) =>
        let pq := lastTwo url
        url :: rawScanF f pq.1 pq.2 rest
      | none => rawScanF f p1 (some c) cs
    else rawScanF f p1 (some c) cs

/-- All raw-URL matches of a text. -/
def rawScan (l : List Char) : List (List Char) :=
  rawScanF (l.length + 1) none none l

/-- The trailing-punctuation class of
`linkUrl.replace(/[.,;:!?)]+$/, "")` (src/index.ts:227). -/
def isTrailPunct (c : Char) : Bool :=
  c == '.' || c == ',' || c == ';' || c == ':' || c == '!' || c == '?' ||
  c == ')'

/-- Strip the maximal trailing run of `[.,;:!?)]` characters. -/
def dropTrailingPunct (l : List Char) : List Char :=
  (l.reverse.dropWhile isTrailPunct).reverse

/-- Model of `[...new Set(urls)]` (src/index.ts:242): deduplication
keeping the first occurrence, in insertion order. -/
def dedupGo (seen : List String) : List String → List String
  | [] => []
  | x :: xs =>
    if seen.contains x then dedupGo seen xs
    else x :: dedupGo (x :: seen) xs

/-- First-occurrence-order deduplication. -/
def dedup (l : List String) : List String := dedupGo [] l

/-- Model of `extractURLs` (src/index.ts:172-243): strip fenced code
blocks, then run the three scans (markdown links filtered by a
`startsWith("http")` check and `isValidUrl`; angle-bracket links
filtered by `isValidUrl`; raw URLs with trailing punctuation stripped
then filtered by `isValidUrl`), each hit passed through
`fixParenthesesInUrl` with the JS-truthiness guard of the call site,
and finally deduplicate. -/
def extractURLsL (content : List Char) : List String :=
  let stripped := stripFences content
  let urls1 := (mdScan stripped).filterMap fun m =>
    let linkUrl := trimL m.2
    if "http".data.isPrefixOf linkUrl && isValidUrlL linkUrl then
      some (applyFixL linkUrl)
    else none
  let urls2 := (angleScan stripped).filterMap fun u =>
    let linkUrl := trimL u
    if isValidUrlL linkUrl then some (applyFixL linkUrl) else none
  let urls3 := (rawScan stripped).filterMap fun u =>
    let linkUrl := dropTrailingPunct (trimL u)
    if isValidUrlL linkUrl then some (applyFixL linkUrl) else none
  dedup (urls1 ++ urls2 ++ urls3)

/-- `String`-level `extractURLs`. -/
def extractURLs (content : String) : List String := extractURLsL content.data

/-- Model of `extractRelativeLinks` (src/index.ts:245-270): the same
markdown-link scan, run on the unstripped content, keeping targets that
start with neither `http` nor `/`, stripped of their `#` fragment and
`?` query (JS `split("#")[0].split("?")[0]`), and filtered by
`isLikelyAFilePath`. -/
def extractRelativeLinksL (content : List Char) : List String :=
  (mdScan content).filterMap fun m =>
    let linkUrl := trimL m.2
    if !("http".data.isPrefixOf linkUrl) && !("/".data.isPrefixOf linkUrl) then
      let cleanLink :=
        (linkUrl.takeWhile (fun c => !(c == '#'))).takeWhile
          (fun c => !(c == '?'))
      if isLikelyAFilePathL cleanLink then some (String.mk cleanLink)
      else none
    else none

/-- `String`-level `extractRelativeLinks`. -/
def extractRelativeLinks (content : String) : List String :=
  extractRelativeLinksL content.data

example :
    extractURLs "[Wiki article](https://en.wikipedia.org/wiki/C_(programming_language))" =
      ["https://en.wikipedia.org/wiki/C_(programming_language)"] := by decide
example :
    extractRelativeLinks "[contact](mailto:user@example.com)" =
      ["mailto:user@example.com"] := by decide
example : extractURLs "[](https://example.com)" = [] := by decide
example : extractURLs "ht```z```tp://example.com" = ["http://example.com"] := by decide

theorem takeWhile_append_all {p : Char → Bool} {l r : List Char}
    (h : ∀ c ∈ l, p c = true) :
    (l ++ r).takeWhile p = l ++ r.takeWhile p := by
  induction l with
  | nil => rfl
  | cons c cs ih =>
    have hc : p c = true := h c (by simp)
    simp only [List.cons_append, List.takeWhile_cons, hc, if_true]
    exact congrArg (c :: ·) (ih fun d hd => h d (by simp [hd]))

theorem dropWhile_append_all {p : Char → Bool} {l r : List Char}
    (h : ∀ c ∈ l, p c = true) :
    (l ++ r).dropWhile p = r.dropWhile p := by
  induction l with
  | nil => rfl
  | cons c cs ih =>
    have hc : p c = true := h c (by simp)
    simp only [List.cons_append, List.dropWhile_cons, hc, if_true]
    exact ih fun d hd => h d (by simp [hd])

theorem spanP_append {p : Char → Bool} {l r : List Char} {x : Char}
    (h : ∀ c ∈ l, p c = true) (hx : p x = false) :
    spanP p (l ++ x :: r) = (l, x :: r) := by
  unfold spanP
  rw [takeWhile_append_all h, dropWhile_append_all h]
  simp [List.takeWhile_cons, List.dropWhile_cons, hx]

theorem spanP_all {p : Char → Bool} {l : List Char}
    (h : ∀ c ∈ l, p c = true) : spanP p l = (l, []) := by
  unfold spanP
  rw [List.takeWhile_eq_self_iff.mpr h, List.dropWhile_eq_nil_iff.mpr h]

theorem isPrefixOf_append_self (l r : List Char) :
    l.isPrefixOf (l ++ r) = true :=
  List.isPrefixOf_iff_prefix.mpr (List.prefix_append l r)

theorem hasSubstrL_of_isPrefixOf {pat l : List Char}
    (h : pat.isPrefixOf l = true) : hasSubstrL pat l = true := by
  cases l with
  | nil => exact h
  | cons c cs => simp [hasSubstrL, h]

theorem hasSubstrL_cons {pat : List Char} (c : Char) {l : List Char}
    (h : hasSubstrL pat l = true) : hasSubstrL pat (c :: l) = true := by
  simp [hasSubstrL, h]

theorem hasSubstrL_append_left {pat : List Char} (l : List Char)
    {r : List Char} (h : hasSubstrL pat r = true) :
    hasSubstrL pat (l ++ r) = true := by
  induction l with
  | nil => exact h
  | cons c cs ih => exact hasSubstrL_cons c ih

theorem mk_data (s : String) : String.mk s.data = s := by
  cases s
  rfl

theorem fixParensL_isSome (l : List Char) : (fixParensL l).isSome = true := by
  unfold fixParensL
  split
  · rfl
  · split
    · rfl
    · split
      · rfl
      · split <;> rfl

/-- C10: `fixParenthesesInUrl` is declared in the source with return
type `string | null`, but every return statement of its body yields a
string: it returns a non-null (`some`) value for every input, so the
null-check branches at its call sites in `extractURLs` are
unreachable. -/
theorem fixParenthesesInUrl_total (url : String) :
    (fixParenthesesInUrl url).isSome = true := by
  unfold fixParenthesesInUrl
  cases h2 : fixParensL url.data with
  | none =>
    have h3 := fixParensL_isSome url.data
    rw [h2] at h3
    exact absurd h3 (by decide)
  | some v => rfl

theorem wikiMatchL_eq {l g : List Char} (h : wikiMatchL l = some g) :
    g = l := by
  unfold wikiMatchL at h
  split at h
  · exact absurd h (by simp)
  · split at h
    · split at h
      · exact (Option.some.injEq .. ▸ h).symm
      · exact absurd h (by simp)
    · exact absurd h (by simp)

/-- C6 amended: when a URL with unbalanced parentheses is not a GitHub
blob URL, `fixParenthesesInUrl` returns it unchanged — in particular it
never truncates a Wikipedia URL at an unmatched `)`: the Wikipedia
regex is anchored on both ends with a `[^)]+` body, so it matches only
URLs containing no `)` at all, and its capture group is then the whole
URL. -/
theorem fix_nongithub_identity (url : String)
    (h : (hasSubstr url "github.com" && hasSubstr url "/blob/") = false) :
    fixParenthesesInUrl url = some url := by
  unfold fixParenthesesInUrl
  have hfix : fixParensL url.data = some url.data := by
    unfold fixParensL
    split
    · rfl
    · split
      · rfl
      · have hgone : (if (hasSubstrL "github.com".data url.data &&
            hasSubstrL "/blob/".data url.data) = true then githubMatchL url.data
            else none) = none := by
          rw [if_neg]
          intro hc
          rw [hasSubstr, hasSubstr] at h
          rw [hc] at h
          exact Bool.false_ne_true h.symm
        rw [hgone]
        split
        · rename_i g1 g2 hp
          exact absurd hp (by simp)
        · split
          · rename_i g hg
            split at hg
            · rw [wikiMatchL_eq hg]
            · exact absurd hg (by simp)
          · rfl
  rw [hfix, Option.map_some', mk_data]

/-- Concrete instance discharging the hypothesis of
`fix_nongithub_identity`. -/
theorem fix_nongithub_identity_witness :
    (hasSubstr "https://en.wikipedia.org/wiki/Test)x" "github.com" &&
      hasSubstr "https://en.wikipedia.org/wiki/Test)x" "/blob/") = false ∧
    fixParenthesesInUrl "https://en.wikipedia.org/wiki/Test)x" =
      some "https://en.wikipedia.org/wiki/Test)x" :=
  ⟨by decide, fix_nongithub_identity _ (by decide)⟩

/-- C6 counterexample: this Wikipedia URL has unbalanced parenthesis
counts and contains an unmatched `)`, yet `fixParenthesesInUrl` returns
it unchanged instead of truncating at the `)` (which would give
`https://en.wikipedia.org/wiki/Test`). -/
theorem fix_wiki_unmatched_close_unchanged :
    hasSubstr "https://en.wikipedia.org/wiki/Test)x" "wikipedia.org" = true ∧
    "https://en.wikipedia.org/wiki/Test)x".data.count '(' ≠
      "https://en.wikipedia.org/wiki/Test)x".data.count ')' ∧
    fixParenthesesInUrl "https://en.wikipedia.org/wiki/Test)x" =
      some "https://en.wikipedia.org/wiki/Test)x" ∧
    ("https://en.wikipedia.org/wiki/Test)x" : String) ≠
      "https://en.wikipedia.org/wiki/Test" := by
  refine ⟨by decide, by decide, by decide, by decide⟩

/-- C1: on `[Wiki article](https://en.wikipedia.org/wiki/C_(programming_language))`
`extractURLs` returns exactly the one-element sequence containing the
full target: the single fully-balanced nested parenthesis group is
captured whole, including its closing parenthesis. -/
theorem extractURLs_wiki_balanced :
    extractURLs "[Wiki article](https://en.wikipedia.org/wiki/C_(programming_language))" =
      ["https://en.wikipedia.org/wiki/C_(programming_language)"] := by decide

/-- C2: on a markdown link whose target has doubly-nested parentheses,
`extractURLs` returns the URL with the final closing parenthesis
omitted: the result ends in `advanced)` and not in `advanced))`. -/
theorem extractURLs_wiki_double_nested :
    extractURLs "[math article](https://en.wikipedia.org/wiki/Function_(mathematics_(advanced)))" =
      ["https://en.wikipedia.org/wiki/Function_(mathematics_(advanced)"] ∧
    "advanced)".data.isSuffixOf
      "https://en.wikipedia.org/wiki/Function_(mathematics_(advanced)".data = true ∧
    "advanced))".data.isSuffixOf
      "https://en.wikipedia.org/wiki/Function_(mathematics_(advanced)".data = false := by
  refine ⟨by decide, by decide, by decide⟩

/-- C7: the path classifier rejects `arg1, arg2`, `key: value`,
`{ key: value }` and `123`, and accepts `path/to/file.md` and
`directory/`. -/
theorem isLikelyAFilePath_examples :
    isLikelyAFilePath "arg1, arg2" = false ∧
    isLikelyAFilePath "key: value" = false ∧
    isLikelyAFilePath "\x7b key: value \x7d" = false ∧
    isLikelyAFilePath "123" = false ∧
    isLikelyAFilePath "path/to/file.md" = true ∧
    isLikelyAFilePath "directory/" = true := by
  refine ⟨by decide, by decide, by decide, by decide, by decide, by decide⟩

/-- C9 counterexample: an inline link with an empty label is not
matched — `extractURLs` on `[](https://example.com)` returns `[]`, not
`["https://example.com"]` (the label pattern `[^\]]+` requires at least
one character, and the raw-URL pass is blocked by its `(?<![[(])`
lookbehind after `](`). -/
theorem extractURLs_empty_label :
    extractURLs "[](https://example.com)" = [] ∧
    ([] : List String) ≠ ["https://example.com"] := by
  refine ⟨by decide, by decide⟩

/-- C9 amended: a markdown inline link whose label text is empty is NOT
matched: `extractURLs "[](https://example.com)"` yields `[]`, while the
same link with a nonempty label yields the URL. -/
theorem empty_label_not_matched :
    extractURLs "[](https://example.com)" = [] ∧
    extractURLs "[x](https://example.com)" = ["https://example.com"] := by
  refine ⟨by decide, by decide⟩

/-- C3 counterexample: on `[contact](mailto:user@example.com)` the
relative extraction emits `mailto:user@example.com` — a string that
begins with the URL scheme `mailto:` — instead of the empty sequence
(`isLikelyAFilePath` accepts it through its permissive default). -/
theorem relative_mailto_emitted :
    extractRelativeLinks "[contact](mailto:user@example.com)" =
      ["mailto:user@example.com"] ∧
    (["mailto:user@example.com"] : List String) ≠ [] ∧
    "mailto:".data.isPrefixOf "mailto:user@example.com".data = true ∧
    extractURLs "[contact](mailto:user@example.com)" = [] := by
  refine ⟨by decide, by decide, by decide, by decide⟩

/-- C3 amended: every string emitted by `extractRelativeLinks` begins
with neither `http` nor `/` (the only exclusions the source applies);
scheme-prefixed non-http targets such as `mailto:` links are NOT
excluded and can be emitted. -/
theorem relative_no_http_slash (content l : String)
    (h : l ∈ extractRelativeLinks content) :
    "http".data.isPrefixOf l.data = false ∧
    "/".data.isPrefixOf l.data = false := by
  unfold extractRelativeLinks extractRelativeLinksL at h
  rw [List.mem_filterMap] at h
  obtain ⟨m, -, hm⟩ := h
  dsimp only at hm
  split at hm
  · rename_i hcond
    split at hm
    · rename_i hlik
      have hl : l = String.mk ((trimL m.2).takeWhile
          (fun c => !(c == '#')) |>.takeWhile (fun c => !(c == '?'))) :=
        (Option.some.injEq .. ▸ hm).symm
      rw [Bool.and_eq_true, Bool.not_eq_true', Bool.not_eq_true'] at hcond
      obtain ⟨h1, h2⟩ := hcond
      have hpref : ((trimL m.2).takeWhile (fun c => !(c == '#')) |>.takeWhile
          (fun c => !(c == '?'))) <+: trimL m.2 :=
        (List.takeWhile_prefix _).trans (List.takeWhile_prefix _)
      constructor
      · cases hb : "http".data.isPrefixOf l.data with
        | false => rfl
        | true =>
          have : "http".data <+: trimL m.2 := by
            refine List.IsPrefix.trans ?_ hpref
            rw [hl] at hb
            exact List.isPrefixOf_iff_prefix.mp hb
          rw [← List.isPrefixOf_iff_prefix] at this
          rw [h1] at this
          exact absurd this (by decide)
      · cases hb : "/".data.isPrefixOf l.data with
        | false => rfl
        | true =>
          have : "/".data <+: trimL m.2 := by
            refine List.IsPrefix.trans ?_ hpref
            rw [hl] at hb
            exact List.isPrefixOf_iff_prefix.mp hb
          rw [← List.isPrefixOf_iff_prefix] at this
          rw [h2] at this
          exact absurd this (by decide)
    · exact absurd hm (by simp)
  · exact absurd hm (by simp)

/-- Concrete instance discharging the hypothesis of
`relative_no_http_slash`: the emitted `mailto:` link starts with
neither `http` nor `/`. -/
theorem relative_no_http_slash_witness :
    ("mailto:user@example.com" ∈
      extractRelativeLinks "[contact](mailto:user@example.com)") ∧
    ("http".data.isPrefixOf "mailto:user@example.com".data = false ∧
     "/".data.isPrefixOf "mailto:user@example.com".data = false) :=
  ⟨by decide,
   relative_no_http_slash "[contact](mailto:user@example.com)"
     "mailto:user@example.com" (by decide)⟩

/-- C5 counterexample: this GitHub blob URL has unbalanced parenthesis
counts and ends in the line-range fragment `#L5`, but
`fixParenthesesInUrl` drops the fragment instead of re-appending it:
the result is the truncation WITHOUT `#L5`. -/
theorem fix_github_fragment_dropped :
    "https://github.com/u/r/blob/main/a(b.md#L5".data.count '(' ≠
      "https://github.com/u/r/blob/main/a(b.md#L5".data.count ')' ∧
    fixParenthesesInUrl "https://github.com/u/r/blob/main/a(b.md#L5" =
      some "https://github.com/u/r/blob/main/a(b.md" ∧
    ("https://github.com/u/r/blob/main/a(b.md" : String) ≠
      "https://github.com/u/r/blob/main/a(b.md#L5" := by
  refine ⟨by decide, by decide, by decide⟩

/-- The `(?:-L\d+)?` suffix shape of a line-range fragment: nothing, or
`-L` followed by digits. -/
def fragTail : Option (List Char) → List Char
  | none => []
  | some d2 => '-' :: 'L' :: d2

theorem dropLineFrag_frag (ds : List Char) (ds2 : Option (List Char))
    (hd : ds ≠ []) (hd2 : ∀ c ∈ ds, c.isDigit = true)
    (hds2 : ∀ d2 ∈ ds2, d2 ≠ [] ∧ ∀ c ∈ d2, c.isDigit = true) :
    dropLineFrag ('#' :: 'L' :: (ds ++ fragTail ds2)) = [] := by
  obtain ⟨d, ds', rfl⟩ := List.exists_cons_of_ne_nil hd
  cases ds2 with
  | none =>
    simp only [dropLineFrag, fragTail, List.append_nil, spanP_all hd2]
  | some d2 =>
    obtain ⟨hne, hdig⟩ := hds2 d2 rfl
    obtain ⟨e, es, rfl⟩ := List.exists_cons_of_ne_nil hne
    simp only [dropLineFrag, fragTail,
      spanP_append (x := '-') hd2 (by decide), spanP_all hdig]

set_option maxHeartbeats 1600000 in
theorem githubMatchL_eval (user repo branch path t : List Char)
    (hu : user ≠ []) (hu2 : '/' ∉ user)
    (hr : repo ≠ []) (hr2 : '/' ∉ repo)
    (hb : branch ≠ []) (hb2 : '/' ∉ branch)
    (hp : path ≠ []) (hp2 : '#' ∉ path) (hp3 : ')' ∉ path)
    (h7 : dropLineFrag ('#' :: t) = []) :
    githubMatchL ("https://github.com/".data ++ (user ++ '/' :: (repo ++
        '/' :: ("blob/".data ++ (branch ++ '/' :: (path ++ '#' :: t)))))) =
      some ("https://github.com/".data ++ (user ++ '/' :: (repo ++
        '/' :: ("blob/".data ++ (branch ++ '/' :: path)))), []) := by
  have hueq : ∀ c ∈ user, (!(c == '/')) = true := fun c hc => by
    rw [Bool.not_eq_true', beq_eq_false_iff_ne]
    exact fun e => hu2 (e ▸ hc)
  have hreq : ∀ c ∈ repo, (!(c == '/')) = true := fun c hc => by
    rw [Bool.not_eq_true', beq_eq_false_iff_ne]
    exact fun e => hr2 (e ▸ hc)
  have hbeq : ∀ c ∈ branch, (!(c == '/')) = true := fun c hc => by
    rw [Bool.not_eq_true', beq_eq_false_iff_ne]
    exact fun e => hb2 (e ▸ hc)
  have hpeq : ∀ c ∈ path, (!(c == '#' || c == ')')) = true := fun c hc => by
    have h1 : (c == '#') = false := beq_eq_false_iff_ne.mpr fun e => hp2 (e ▸ hc)
    have h2 : (c == ')') = false := beq_eq_false_iff_ne.mpr fun e => hp3 (e ▸ hc)
    rw [h1, h2]
    rfl
  obtain ⟨u, us, rfl⟩ := List.exists_cons_of_ne_nil hu
  obtain ⟨r, rs, rfl⟩ := List.exists_cons_of_ne_nil hr
  obtain ⟨b, bs, rfl⟩ := List.exists_cons_of_ne_nil hb
  obtain ⟨p, ps, rfl⟩ := List.exists_cons_of_ne_nil hp
  have e1 : ∀ Y : List Char, "https://github.com/".data ++ Y =
      'h' :: 't' :: 't' :: 'p' :: 's' :: ':' :: '/' :: '/' ::
      ('g' :: 'i' :: 't' :: 'h' :: 'u' :: 'b' :: '.' :: 'c' :: 'o' :: 'm' ::
        '/' :: Y) := fun _ => rfl
  have e2 : ∀ Y : List Char, "blob/".data ++ Y =
      'b' :: 'l' :: 'o' :: 'b' :: '/' :: Y := fun _ => rfl
  simp only [e1, e2, githubMatchL, dropScheme,
    spanP_append (x := '/') hueq (by decide),
    spanP_append (x := '/') hreq (by decide),
    spanP_append (x := '/') hbeq (by decide),
    spanP_append (x := '#') hpeq (by decide),
    h7, List.isEmpty_cons, Bool.false_eq_true, if_false, List.elem_nil,
    Bool.or_self]
  rfl

theorem count_neq_not_nocontains {U : List Char}
    (hcount : U.count '(' ≠ U.count ')') :
    ¬ ((!U.contains '(' && !U.contains ')') = true) := by
  intro hcc
  rw [Bool.and_eq_true, Bool.not_eq_true', Bool.not_eq_true'] at hcc
  obtain ⟨ha, hbb⟩ := hcc
  have ha' : List.elem '(' U = false := ha
  have hb' : List.elem ')' U = false := hbb
  apply hcount
  rw [List.count_eq_zero.mpr fun hm => by
        rw [List.elem_iff.mpr hm] at ha'
        exact Bool.noConfusion ha',
      List.count_eq_zero.mpr fun hm => by
        rw [List.elem_iff.mpr hm] at hb'
        exact Bool.noConfusion hb']

theorem hasSubstrL_github (X : List Char) :
    hasSubstrL "github.com".data ("https://github.com/".data ++ X) = true := by
  have e : "https://github.com/".data ++ X =
      "https://".data ++ ("github.com".data ++ ('/' :: X)) := rfl
  rw [e]
  exact hasSubstrL_append_left _ (hasSubstrL_of_isPrefixOf (isPrefixOf_append_self _ _))

theorem hasSubstrL_blob (user repo Z : List Char) :
    hasSubstrL "/blob/".data ("https://github.com/".data ++ (user ++ '/' ::
      (repo ++ '/' :: ("blob/".data ++ Z)))) = true := by
  refine hasSubstrL_append_left _ ?_
  refine hasSubstrL_append_left _ ?_
  refine hasSubstrL_cons _ ?_
  refine hasSubstrL_append_left _ ?_
  have e : '/' :: ("blob/".data ++ Z) = "/blob/".data ++ Z := rfl
  rw [e]
  exact hasSubstrL_of_isPrefixOf (isPrefixOf_append_self _ _)

/-- C5 amended: for every GitHub blob URL with unbalanced parenthesis
counts that ends in a trailing line-range fragment `#L<n>` or
`#L<n>-L<m>`, `fixParenthesesInUrl` returns the URL truncated up
through the file path component with the fragment REMOVED, not
re-appended: the fragment is consumed by a non-capturing group of the
repair regex, and only the text following the fragment (here empty) is
re-appended. -/
theorem fix_github_fragment_removed
    (user repo branch path ds : List Char) (ds2 : Option (List Char))
    (hu : user ≠ []) (hu2 : '/' ∉ user)
    (hr : repo ≠ []) (hr2 : '/' ∉ repo)
    (hb : branch ≠ []) (hb2 : '/' ∉ branch)
    (hp : path ≠ []) (hp2 : '#' ∉ path) (hp3 : ')' ∉ path)
    (hd : ds ≠ []) (hd2 : ∀ c ∈ ds, c.isDigit = true)
    (hds2 : ∀ d2 ∈ ds2, d2 ≠ [] ∧ ∀ c ∈ d2, c.isDigit = true)
    (hcount :
      ("https://github.com/".data ++ (user ++ '/' :: (repo ++ '/' ::
        ("blob/".data ++ (branch ++ '/' :: (path ++ '#' :: 'L' ::
          (ds ++ fragTail ds2))))))).count '(' ≠
      ("https://github.com/".data ++ (user ++ '/' :: (repo ++ '/' ::
        ("blob/".data ++ (branch ++ '/' :: (path ++ '#' :: 'L' ::
          (ds ++ fragTail ds2))))))).count ')') :
    fixParenthesesInUrl (String.mk ("https://github.com/".data ++ (user ++
        '/' :: (repo ++ '/' :: ("blob/".data ++ (branch ++ '/' :: (path ++
          '#' :: 'L' :: (ds ++ fragTail ds2)))))))) =
      some (String.mk ("https://github.com/".data ++ (user ++ '/' ::
        (repo ++ '/' :: ("blob/".data ++ (branch ++ '/' :: path)))))) := by
  have hgh := githubMatchL_eval user repo branch path
    ('L' :: (ds ++ fragTail ds2)) hu hu2 hr hr2 hb hb2 hp hp2 hp3
    (dropLineFrag_frag ds ds2 hd hd2 hds2)
  unfold fixParenthesesInUrl
  have hdata : (String.mk ("https://github.com/".data ++ (user ++ '/' ::
      (repo ++ '/' :: ("blob/".data ++ (branch ++ '/' :: (path ++ '#' ::
        'L' :: (ds ++ fragTail ds2)))))))).data =
      "https://github.com/".data ++ (user ++ '/' :: (repo ++ '/' ::
        ("blob/".data ++ (branch ++ '/' :: (path ++ '#' :: 'L' ::
          (ds ++ fragTail ds2)))))) := rfl
  rw [hdata]
  have hfix : fixParensL ("https://github.com/".data ++ (user ++ '/' ::
      (repo ++ '/' :: ("blob/".data ++ (branch ++ '/' :: (path ++ '#' ::
        'L' :: (ds ++ fragTail ds2))))))) =
      some ("https://github.com/".data ++ (user ++ '/' :: (repo ++ '/' ::
        ("blob/".data ++ (branch ++ '/' :: path))))) := by
    unfold fixParensL
    have hsub : (hasSubstrL "github.com".data
        ("https://github.com/".data ++ (user ++ '/' :: (repo ++ '/' ::
          ("blob/".data ++ (branch ++ '/' :: (path ++ '#' :: 'L' ::
            (ds ++ fragTail ds2))))))) &&
        hasSubstrL "/blob/".data
        ("https://github.com/".data ++ (user ++ '/' :: (repo ++ '/' ::
          ("blob/".data ++ (branch ++ '/' :: (path ++ '#' :: 'L' ::
            (ds ++ fragTail ds2)))))))) = true := by
      rw [Bool.and_eq_true]
      exact ⟨hasSubstrL_github _, hasSubstrL_blob _ _ _⟩
    rw [if_neg (count_neq_not_nocontains hcount), if_neg hcount,
        if_pos hsub, hgh]
    simp only [List.append_nil]
  rw [hfix, Option.map_some']

/-- Concrete instance discharging the hypotheses of
`fix_github_fragment_removed`. -/
theorem fix_github_fragment_removed_witness :
    ("https://github.com/u/r/blob/main/a(b.md#L5".data.count '(' ≠
      "https://github.com/u/r/blob/main/a(b.md#L5".data.count ')') ∧
    fixParenthesesInUrl "https://github.com/u/r/blob/main/a(b.md#L5" =
      some "https://github.com/u/r/blob/main/a(b.md" := by
  refine ⟨by decide, ?_⟩
  exact fix_github_fragment_removed "u".data "r".data "main".data
    "a(b.md".data "5".data none (by decide) (by decide) (by decide)
    (by decide) (by decide) (by decide) (by decide) (by decide) (by decide)
    (by decide) (by decide) (fun d2 h => Option.noConfusion h) (by decide)

theorem isFenceStart_cons_ne {c : Char} (l : List Char) (h : c ≠ btChar) :
    isFenceStart (c :: l) = false := by
  simp only [isFenceStart]
  rw [beq_eq_false_iff_ne.mpr h, Bool.false_and]

theorem isFenceStart_bt (l : List Char) :
    isFenceStart (btChar :: btChar :: btChar :: l) = true := by
  simp [isFenceStart]

theorem findFence_splice (q r : List Char) (hq : ∀ c ∈ q, c ≠ btChar) :
    findFence (q ++ btChar :: btChar :: btChar :: r) = some r := by
  induction q with
  | nil => simp [findFence, isFenceStart_bt]
  | cons c q' ih =>
    have hc : c ≠ btChar := hq c (by simp)
    simp only [List.cons_append, findFence, isFenceStart_cons_ne _ hc,
      Bool.false_eq_true, if_false]
    exact ih fun d hd => hq d (by simp [hd])

theorem stripFencesF_no_bt (f : Nat) (l : List Char)
    (h : ∀ c ∈ l, c ≠ btChar) : stripFencesF f l = l := by
  induction f generalizing l with
  | zero => rfl
  | succ f ih =>
    cases l with
    | nil => rfl
    | cons c cs =>
      have hc : c ≠ btChar := h c (by simp)
      simp only [stripFencesF, isFenceStart_cons_ne _ hc, Bool.false_eq_true,
        if_false]
      exact congrArg (c :: ·) (ih cs fun d hd => h d (by simp [hd]))

theorem stripFencesF_splice (p q r : List Char) (f : Nat)
    (hf : p.length < f)
    (hp : ∀ c ∈ p, c ≠ btChar) (hq : ∀ c ∈ q, c ≠ btChar)
    (hr : ∀ c ∈ r, c ≠ btChar) :
    stripFencesF f (p ++ btChar :: btChar :: btChar ::
      (q ++ btChar :: btChar :: btChar :: r)) = p ++ r := by
  induction p generalizing f with
  | nil =>
    cases f with
    | zero => omega
    | succ f' =>
      simp only [List.nil_append, stripFencesF, isFenceStart_bt, if_true,
        List.drop_succ_cons, List.drop_zero]
      rw [findFence_splice q r hq]
      exact stripFencesF_no_bt f' r hr
  | cons c p' ih =>
    cases f with
    | zero => omega
    | succ f' =>
      have hc : c ≠ btChar := hp c (by simp)
      simp only [List.cons_append, stripFencesF, isFenceStart_cons_ne _ hc,
        Bool.false_eq_true, if_false]
      exact congrArg (c :: ·)
        (ih f' (by simp only [List.length_cons] at hf; omega)
          (fun d hd => hp d (by simp [hd])))

/-- `stripFences` leaves a backtick-free text unchanged. -/
theorem stripFences_no_bt (l : List Char) (h : ∀ c ∈ l, c ≠ btChar) :
    stripFences l = l := stripFencesF_no_bt l.length l h

/-- `stripFences` removes a fenced block delimited by two backtick
triples from an otherwise backtick-free text. -/
theorem stripFences_splice (p q r : List Char)
    (hp : ∀ c ∈ p, c ≠ btChar) (hq : ∀ c ∈ q, c ≠ btChar)
    (hr : ∀ c ∈ r, c ≠ btChar) :
    stripFences (p ++ btChar :: btChar :: btChar ::
      (q ++ btChar :: btChar :: btChar :: r)) = p ++ r := by
  refine stripFencesF_splice p q r _ ?_ hp hq hr
  simp

theorem extractURLsL_congr {A B : List Char}
    (h : stripFences A = stripFences B) : extractURLsL A = extractURLsL B := by
  unfold extractURLsL
  rw [h]

/-- C4 amended (part 1): `extractURLs` strips fenced code blocks before
scanning — for any text split as `P ++ "va" ++ Q ++ "va" ++ R` with
`va` a backtick triple and `P`, `Q`, `R` backtick-free, it behaves
exactly as on `P ++ R`, so links inside the fenced block are never
emitted.  `extractRelativeLinks` does NOT strip fenced code blocks (see
the counterexample), which is the corrected half of the claim. -/
theorem extractURLs_strips_fences (P Q R : String)
    (hP : ∀ c ∈ P.data, c ≠ btChar) (hQ : ∀ c ∈ Q.data, c ≠ btChar)
    (hR : ∀ c ∈ R.data, c ≠ btChar) :
    extractURLs (P ++ "```" ++ Q ++ "```" ++ R) = extractURLs (P ++ R) := by
  unfold extractURLs
  apply extractURLsL_congr
  have hform : (P ++ "```" ++ Q ++ "```" ++ R).data =
      P.data ++ btChar :: btChar :: btChar ::
        (Q.data ++ btChar :: btChar :: btChar :: R.data) := by
    simp only [String.data_append, List.append_assoc]
    rfl
  have hform2 : (P ++ R).data = P.data ++ R.data := String.data_append P R
  rw [hform, hform2, stripFences_splice _ _ _ hP hQ hR,
    stripFences_no_bt (P.data ++ R.data)]
  intro c hc
  rcases List.mem_append.mp hc with h | h
  · exact hP c h
  · exact hR c h

/-- C4 counterexample: a relative link inside a fenced code block IS
emitted by `extractRelativeLinks` (it scans the unstripped content),
while `extractURLs` on the same fenced content emits nothing. -/
theorem relative_inside_fence_emitted :
    extractRelativeLinks "```\n[doc](docs/guide.md)\nhttp://example.com\n```" =
      ["docs/guide.md"] ∧
    (["docs/guide.md"] : List String) ≠ [] ∧
    extractURLs "```\n[doc](docs/guide.md)\nhttp://example.com\n```" = [] := by
  refine ⟨by decide, by decide, by decide⟩

/-- Concrete instance discharging the hypotheses of
`extractURLs_strips_fences`. -/
theorem extractURLs_strips_fences_witness :
    (∀ c ∈ ("see " : String).data, c ≠ btChar) ∧
    extractURLs ("see " ++ "```" ++ "[x](http://a.com) text" ++ "```" ++
        " [doc](https://example.com)") =
      extractURLs ("see " ++ " [doc](https://example.com)") :=
  ⟨by decide,
   extractURLs_strips_fences "see " "[x](http://a.com) text"
     " [doc](https://example.com)" (by decide) (by decide) (by decide)⟩

theorem dropScheme_substr {l r0 s : List Char}
    (h : dropScheme l = some (s, r0)) :
    hasSubstrL "http://".data l = true ∨
    hasSubstrL "https://".data l = true := by
  unfold dropScheme at h
  split at h
  · right
    apply hasSubstrL_of_isPrefixOf
    have e : "https://".data =
        'h' :: 't' :: 't' :: 'p' :: 's' :: ':' :: '/' :: '/' :: [] := rfl
    rw [e]
    simp [List.isPrefixOf]
  · left
    apply hasSubstrL_of_isPrefixOf
    have e : "http://".data =
        'h' :: 't' :: 't' :: 'p' :: ':' :: '/' :: '/' :: [] := rfl
    rw [e]
    simp [List.isPrefixOf]
  · exact absurd h (by simp)

theorem angleScanF_substr (f : Nat) (cs : List Char)
    (h : angleScanF f cs ≠ []) :
    hasSubstrL "http://".data cs = true ∨
    hasSubstrL "https://".data cs = true := by
  induction f generalizing cs with
  | zero => exact absurd rfl h
  | succ f ih =>
    cases cs with
    | nil => exact absurd rfl h
    | cons c cs' =>
      have lift : (hasSubstrL "http://".data cs' = true ∨
          hasSubstrL "https://".data cs' = true) →
          hasSubstrL "http://".data (c :: cs') = true ∨
          hasSubstrL "https://".data (c :: cs') = true := by
        rintro (hx | hx)
        · exact Or.inl (hasSubstrL_cons _ hx)
        · exact Or.inr (hasSubstrL_cons _ hx)
      by_cases hc : c = '<'
      · subst hc
        simp only [angleScanF, eq_self_iff_true, if_true] at h
        cases hat : angleTry cs' with
        | some ur =>
          have hds : ∃ s r2, dropScheme cs' = some (s, r2) := by
            unfold angleTry at hat
            cases hds2 : dropScheme cs' with
            | none => rw [hds2] at hat; exact absurd hat (by simp)
            | some sr => exact ⟨sr.1, sr.2, rfl⟩
          obtain ⟨s, r2, hds⟩ := hds
          exact lift (dropScheme_substr hds)
        | none =>
          simp only [hat] at h
          exact lift (ih cs' h)
      · simp only [angleScanF, if_neg hc] at h
        exact lift (ih cs' h)

theorem rawScanF_substr (f : Nat) (p2 p1 : Option Char) (cs : List Char)
    (h : rawScanF f p2 p1 cs ≠ []) :
    hasSubstrL "http://".data cs = true ∨
    hasSubstrL "https://".data cs = true := by
  induction f generalizing p2 p1 cs with
  | zero => exact absurd rfl h
  | succ f ih =>
    cases cs with
    | nil => exact absurd rfl h
    | cons c cs' =>
      have lift : (hasSubstrL "http://".data cs' = true ∨
          hasSubstrL "https://".data cs' = true) →
          hasSubstrL "http://".data (c :: cs') = true ∨
          hasSubstrL "https://".data (c :: cs') = true := by
        rintro (hx | hx)
        · exact Or.inl (hasSubstrL_cons _ hx)
        · exact Or.inr (hasSubstrL_cons _ hx)
      by_cases hlk : rawLookOk p2 p1 = true
      · simp only [rawScanF, hlk, if_true] at h
        cases hat : rawTry (c :: cs') with
        | some ur =>
          have hds : ∃ s r2, dropScheme (c :: cs') = some (s, r2) := by
            unfold rawTry at hat
            cases hds2 : dropScheme (c :: cs') with
            | none => rw [hds2] at hat; exact absurd hat (by simp)
            | some sr => exact ⟨sr.1, sr.2, rfl⟩
          obtain ⟨s, r2, hds⟩ := hds
          exact dropScheme_substr hds
        | none =>
          simp only [hat] at h
          exact lift (ih p1 (some c) cs' h)
      · have hlk' : rawLookOk p2 p1 = false := by
          rwa [Bool.not_eq_true] at hlk
        simp only [rawScanF, hlk', Bool.false_eq_true, if_false] at h
        exact lift (ih p1 (some c) cs' h)

theorem angleScan_empty {l : List Char}
    (h4 : hasSubstrL "http://".data l = false)
    (h5 : hasSubstrL "https://".data l = false) : angleScan l = [] := by
  by_contra hne
  rcases angleScanF_substr _ _ hne with hx | hx
  · rw [h4] at hx
    exact Bool.noConfusion hx
  · rw [h5] at hx
    exact Bool.noConfusion hx

theorem rawScan_empty {l : List Char}
    (h4 : hasSubstrL "http://".data l = false)
    (h5 : hasSubstrL "https://".data l = false) : rawScan l = [] := by
  by_contra hne
  rcases rawScanF_substr _ _ _ _ hne with hx | hx
  · rw [h4] at hx
    exact Bool.noConfusion hx
  · rw [h5] at hx
    exact Bool.noConfusion hx

/-- C8 amended: both extraction functions are total by construction,
and they return empty sequences whenever neither the content NOR its
code-fence-stripped form contains a markdown link and the stripped form
contains no `<http`, `http://` or `https://` substring.  (The
conditions must hold for the STRIPPED form: fence stripping can splice
surrounding text into a fresh `http://` occurrence — see the
counterexample.) -/
theorem extract_empty_of_no_links (content : String)
    (h1 : mdScan (stripFences content.data) = [])
    (h2 : mdScan content.data = [])
    (h3 : hasSubstrL "<http".data (stripFences content.data) = false)
    (h4 : hasSubstrL "http://".data (stripFences content.data) = false)
    (h5 : hasSubstrL "https://".data (stripFences content.data) = false) :
    extractURLs content = [] ∧ extractRelativeLinks content = [] := by
  constructor
  · unfold extractURLs extractURLsL
    simp only [h1, angleScan_empty h4 h5, rawScan_empty h4 h5,
      List.filterMap_nil, List.append_nil, List.nil_append]
    rfl
  · unfold extractRelativeLinks extractRelativeLinksL
    rw [h2, List.filterMap_nil]

/-- Concrete instance discharging the hypotheses of
`extract_empty_of_no_links`. -/
theorem extract_empty_of_no_links_witness :
    mdScan (stripFences "plain text, no links at all.".data) = [] ∧
    extractURLs "plain text, no links at all." = [] ∧
    extractRelativeLinks "plain text, no links at all." = [] :=
  ⟨by decide,
   (extract_empty_of_no_links "plain text, no links at all." (by decide)
     (by decide) (by decide) (by decide) (by decide)).1,
   (extract_empty_of_no_links "plain text, no links at all." (by decide)
     (by decide) (by decide) (by decide) (by decide)).2⟩

/-- C8 counterexample: this input contains no `[` at all, no `<http`,
and no `http://`/`https://` substring, yet `extractURLs` returns a
non-empty sequence: stripping the fenced block `(va)z(va)` (with `va` a
backtick triple) splices `ht` and `tp://example.com` into
`http://example.com`, which the raw-URL pass then matches. -/
theorem extract_seam_counterexample :
    "ht```z```tp://example.com".data.contains '[' = false ∧
    hasSubstr "ht```z```tp://example.com" "<http" = false ∧
    hasSubstr "ht```z```tp://example.com" "http://" = false ∧
    hasSubstr "ht```z```tp://example.com" "https://" = false ∧
    extractURLs "ht```z```tp://example.com" = ["http://example.com"] ∧
    (["http://example.com"] : List String) ≠ [] := by
  refine ⟨by decide, by decide, by decide, by decide, by decide, by decide⟩
